import Mathlib

set_option maxHeartbeats 1000000

/-! Verification of the paper_patterns repository against its design
specification.  The development shallowly embeds the PMC XML parser
(src/parsers/xml_parser.py), the batch downloader
(src/collectors/pmc_downloader.py), the retrying API clients
(src/api/ncbi_client.py and src/collectors/paper_collector.py), the
checkpoint manager (src/collectors/checkpoint_manager.py) and the
interrupt handling of scripts/download_full_texts.py.  External effects
(network fetches, XML string parsing, wall-clock sleeping, the file
system) are passed in as explicit oracle functions or state; everything
else is translated definition-by-definition from the Python source. -/

/-- Insertion-ordered association list standing for a Python dict:
assignment replaces the value in place when the key exists and appends
at the end otherwise. -/
def dictInsert {α : Type} (d : List (String × α)) (k : String) (v : α) :
    List (String × α) :=
  match d with
  | [] => [(k, v)]
  | (k0, v0) :: rest => if k0 = k then (k, v) :: rest else (k0, v0) :: dictInsert rest k v

/-- Lookup in the dict model (Python dict.get). -/
def dictGet {α : Type} (d : List (String × α)) (k : String) : Option α :=
  match d with
  | [] => none
  | (k0, v0) :: rest => if k0 = k then some v0 else dictGet rest k

/-- Python dict.update: assign every pair of the right dict into the left one. -/
def dictUpdate {α : Type} (d d2 : List (String × α)) : List (String × α) :=
  d2.foldl (fun acc kv => dictInsert acc kv.1 kv.2) d

/-- Keys of the dict model, in insertion order. -/
def dictKeys {α : Type} (d : List (String × α)) : List String := d.map Prod.fst

/-- Model of an xml.etree.ElementTree element: tag, attribute dict, the
text before the first child, the child elements in document order, and
the tail text that follows the closing tag inside the parent. -/
inductive Element : Type where
  | mk (tag : String) (attrib : List (String × String)) (text : Option String)
      (children : List Element) (tail : Option String)

def Element.tag : Element → String
  | .mk t _ _ _ _ => t

def Element.attrib : Element → List (String × String)
  | .mk _ a _ _ _ => a

def Element.text : Element → Option String
  | .mk _ _ tx _ _ => tx

def Element.children : Element → List Element
  | .mk _ _ _ cs _ => cs

def Element.tail : Element → Option String
  | .mk _ _ _ _ tl => tl

/-- Truthiness-filtered text chunk: Python yields a text or tail field
only when it is neither None nor empty. -/
def optChunk : Option String → List String
  | none => []
  | some s => if s = "" then [] else [s]

mutual
/-- Model of Element.itertext(): the own text, then for each child its
chunks followed by the tail of that child. -/
def Element.itertext : Element → List String
  | .mk _ _ tx cs _ => optChunk tx ++ itertextList cs

def itertextList : List Element → List String
  | [] => []
  | c :: rest => c.itertext ++ optChunk c.tail ++ itertextList rest
end

mutual
/-- Descendant elements in document (preorder) order; this is what an
ElementTree .// path iterates over (the element itself excluded). -/
def Element.descendants : Element → List Element
  | .mk _ _ _ cs _ => descList cs

def descList : List Element → List Element
  | [] => []
  | c :: rest => c :: (c.descendants ++ descList rest)
end

/-- ElementTree find of a direct child by tag. -/
def findChild (e : Element) (tg : String) : Option Element :=
  e.children.find? (fun c => c.tag == tg)

/-- ElementTree findall over direct children by tag. -/
def childrenTag (e : Element) (tg : String) : List Element :=
  e.children.filter (fun c => c.tag == tg)

/-- ElementTree find of the first descendant with the tag. -/
def findDeep (e : Element) (tg : String) : Option Element :=
  e.descendants.find? (fun c => c.tag == tg)

/-- ElementTree findall over all descendants with the tag. -/
def findallDeep (e : Element) (tg : String) : List Element :=
  e.descendants.filter (fun c => c.tag == tg)

/-- ElementTree find with a tag and an attribute-value predicate. -/
def findDeepAttr (e : Element) (tg attr val : String) : Option Element :=
  e.descendants.find? (fun c => c.tag == tg && dictGet c.attrib attr == some val)

/-- ElementTree find over a two-step descendant path: the first child with
the second tag of a descendant with the first tag, in document order. -/
def findDeepPath (e : Element) (tg1 tg2 : String) : Option Element :=
  ((e.descendants.filter (fun c => c.tag == tg1)).map (fun c => childrenTag c tg2)).flatten.head?

/-- Python attrib.get with a default value. -/
def attribGetD (e : Element) (k dflt : String) : String :=
  match dictGet e.attrib k with
  | some v => v
  | none => dflt

/-- Python sep.join over a chunk list. -/
def strJoin (sep : String) (chunks : List String) : String :=
  String.intercalate sep chunks

/-- Python str() applied to a str-or-None value: None renders as the word
None inside an f-string. -/
def pyStr : Option String → String
  | some s => s
  | none => "None"

/-- Python str.strip(): remove leading and trailing whitespace. -/
def pyStrip (s : String) : String :=
  String.mk (((s.toList.dropWhile Char.isWhitespace).reverse.dropWhile Char.isWhitespace).reverse)

/-- Python string repetition (the expression s * n). -/
def strRepeat (s : String) : Nat → String
  | 0 => ""
  | n + 1 => s ++ strRepeat s n

/-- Replacement loop over character lists; the fuel starts at the length
of the subject and bounds the loop (each step consumes at least one
character, so the fuel never runs out). -/
def replaceFuel : Nat → List Char → List Char → List Char → List Char
  | 0, _, _, l => l
  | fuel + 1, needle, repl, l =>
    match l with
    | [] => []
    | c :: rest =>
      if !needle.isEmpty && needle.isPrefixOf (c :: rest) then
        repl ++ replaceFuel fuel needle repl ((c :: rest).drop needle.length)
      else c :: replaceFuel fuel needle repl rest

/-- Python str.replace: replace every non-overlapping occurrence, left to
right. -/
def pyReplace (s needle repl : String) : String :=
  String.mk (replaceFuel s.toList.length needle.toList repl.toList s.toList)

/-- Python str.startswith. -/
def pyStartsWith (s pre : String) : Bool :=
  pre.toList.isPrefixOf s.toList

/-- Python enumerate with a start index. -/
def enumFrom {α : Type} (i : Nat) : List α → List (Nat × α)
  | [] => []
  | x :: rest => (i, x) :: enumFrom (i + 1) rest

/-- Model of xml_parser.extract_article_root: the root itself when it is
the article, else the first article descendant, else an article inside a
pmc-articleset wrapper. -/
def extract_article_root (root : Element) : Option Element :=
  if root.tag = "article" then some root
  else
    match findDeep root "article" with
    | some a => some a
    | none =>
      match findDeep root "pmc-articleset" with
      | some s => findDeep s "article"
      | none => none

/-- Model of xml_parser.extract_metadata.  Values are str-or-None exactly
as in Python (a found node with absent text stores None). -/
def extract_metadata (article : Element) (pmcid : String) :
    List (String × Option String) :=
  let m : List (String × Option String) := []
  let m := dictInsert m "Article Type" (some (attribGetD article "article-type" "Not specified"))
  let m := dictInsert m "DOI"
    (match findDeepAttr article "article-id" "pub-id-type" "doi" with
     | some e => e.text
     | none => some "DOI not available")
  let m := dictInsert m "PubMed Link"
    (match findDeepAttr article "article-id" "pub-id-type" "pmid" with
     | some e => some ("https://pubmed.ncbi.nlm.nih.gov/" ++ pyStr e.text ++ "/")
     | none => some "Not available")
  let m := dictInsert m "PMC Link"
    (some ("https://www.ncbi.nlm.nih.gov/pmc/articles/PMC" ++ pmcid ++ "/"))
  let m :=
    match findDeep article "journal-title" with
    | some e => dictInsert m "Journal" e.text
    | none => m
  let m :=
    match findDeep article "article-title" with
    | some e => dictInsert m "Title" (some (strJoin "" e.itertext))
    | none => m
  match findDeepPath article "pub-date" "year" with
  | some e => dictInsert m "Year Published" e.text
  | none => m

/-- Model of xml_parser.extract_abstract. -/
def extract_abstract (article : Element) : String :=
  match findDeep article "abstract" with
  | some e => "ABSTRACT:\n" ++ strJoin " " e.itertext ++ "\n\n"
  | none => ""

mutual
/-- Model of xml_parser.extract_sections: title line with a depth-scaled
marker, the direct paragraph children each followed by a blank line, then
the nested sec children recursively. -/
def extract_sections : Element → Nat → String
  | parent@(.mk _ _ _ cs _), level =>
    let text :=
      match findChild parent "title" with
      | some t => strRepeat " #" level ++ " " ++ pyStrip (strJoin "" t.itertext) ++ "\n"
      | none => ""
    let text := (childrenTag parent "p").foldl
      (fun acc p => acc ++ pyStrip (strJoin "" p.itertext) ++ "\n\n") text
    extractSecChildren cs level text

/-- Accumulating loop of extract_sections over the sec-tagged children,
exactly the for-loop over findall of the source (non-sec children are
skipped). -/
def extractSecChildren : List Element → Nat → String → String
  | [], _, acc => acc
  | c :: rest, level, acc =>
    if c.tag == "sec" then
      extractSecChildren rest level (acc ++ extract_sections c (level + 1))
    else extractSecChildren rest level acc
end

/-- Model of xml_parser.extract_body: sec children of the first body
descendant, then the direct paragraph children of the body. -/
def extract_body (article : Element) : String :=
  match findDeep article "body" with
  | none => ""
  | some body =>
    let text := (childrenTag body "sec").foldl
      (fun acc s => acc ++ extract_sections s 1) ""
    (childrenTag body "p").foldl
      (fun acc p => acc ++ pyStrip (strJoin "" p.itertext) ++ "\n\n") text

/-- Model of xml_parser.extract_tables. -/
def extract_tables (article : Element) : String :=
  let tables := findallDeep article "table-wrap"
  if tables.isEmpty then ""
  else
    (enumFrom 1 tables).foldl (fun acc it =>
      let acc :=
        match findDeep it.2 "caption" with
        | some cap => acc ++ "Table " ++ Nat.repr it.1 ++ ": " ++ strJoin " " cap.itertext ++ "\n"
        | none => acc
      match findDeep it.2 "table" with
      | some tbl => acc ++ strJoin " " tbl.itertext ++ "\n\n"
      | none => acc) "TABLES:\n"

/-- Model of xml_parser.extract_figures. -/
def extract_figures (article : Element) : String :=
  let figures := findallDeep article "fig"
  if figures.isEmpty then ""
  else
    (enumFrom 1 figures).foldl (fun acc it =>
      match findDeep it.2 "caption" with
      | some cap => acc ++ "Figure " ++ Nat.repr it.1 ++ ": " ++ strJoin " " cap.itertext ++ "\n\n"
      | none => acc) "FIGURES:\n"

/-- Model of xml_parser.extract_references: ref descendants of ref-list
descendants, numbered from one. -/
def extract_references (article : Element) : String :=
  let refs := ((findallDeep article "ref-list").map (fun rl => findallDeep rl "ref")).flatten
  if refs.isEmpty then ""
  else
    (enumFrom 1 refs).foldl (fun acc it =>
      acc ++ Nat.repr it.1 ++ ". " ++ strJoin " " it.2.itertext ++ "\n") "REFERENCES:\n"

/-- Parsed document: the metadata dict and the flattened page content, the
two fields built by xml_parser.parse_pmc_xml. -/
structure PDocument where
  metadata : List (String × Option String)
  page_content : String
deriving DecidableEq

/-- Model of xml_parser.parse_pmc_xml after the raw string has been
decoded and parsed: the ET.fromstring step is external, so this function
receives the already-parsed root (a parse failure upstream surfaces as no
root at all and yields none before this function runs). -/
def parse_pmc_root (root : Element) (pmcid : String) : Option PDocument :=
  match extract_article_root root with
  | none => none
  | some article =>
    some { metadata := extract_metadata article pmcid
           page_content :=
             extract_abstract article ++ extract_body article ++ extract_tables article
               ++ extract_figures article ++ extract_references article }

/-- One parsed PubmedArticle record as produced by the Entrez read: the
MedlineCitation PMID (none models a key error raised before the pmid
local variable is assigned, which the handler can only log) and the
PubmedData ArticleIdList rendered to strings (none models a key error
raised after the pmid is known, which marks the pmid failed). -/
structure PubmedArticle where
  pmid : Option String
  articleIds : Option (List String)

/-- Outcome collections of a batch: the triple built by
PMCDownloader.fetch_pmcids_from_pmids (returned there in the order
failed, multiple, documents) and accumulated by download_batch_parallel
(returned there in the order documents, failed, multiple). -/
structure BatchResult where
  failed : List String
  multiple : List (String × List String)
  documents : List (String × PDocument)
deriving DecidableEq

/-- Model of PMCDownloader.download_article: the network fetch, the
handle read and the XML string parse happen outside the program and are
one oracle from the normalized id to the parsed XML root (none models a
failure anywhere on that path); the rest is parse_pmc_xml. -/
def download_article (fetchRoot : String → Option Element) (pmcid : String) :
    Option PDocument :=
  let stripped := if pyStartsWith pmcid "PMC" then pyReplace pmcid "PMC" "" else pmcid
  match fetchRoot stripped with
  | none => none
  | some root => parse_pmc_root root stripped

/-- Loop body of fetch_pmcids_from_pmids for one PubmedArticle record. -/
def processArticle (fetchRoot : String → Option Element) (acc : BatchResult)
    (article : PubmedArticle) : BatchResult :=
  match article.pmid with
  | none => acc
  | some pmid =>
    match article.articleIds with
    | none => { acc with failed := acc.failed ++ [pmid] }
    | some ids =>
      match ids.filter (fun s => pyStartsWith s "PMC") with
      | [] => { acc with failed := acc.failed ++ [pmid] }
      | pmcid0 :: rest =>
        let acc1 :=
          if (pmcid0 :: rest).length > 1 then
            { acc with multiple := dictInsert acc.multiple pmid (pmcid0 :: rest) }
          else acc
        match download_article fetchRoot pmcid0 with
        | some doc =>
          let doc2 := { doc with metadata := dictInsert doc.metadata "PMCID" (some pmcid0) }
          { acc1 with documents := dictInsert acc1.documents pmid doc2 }
        | none => { acc1 with failed := acc1.failed ++ [pmid] }

/-- Model of PMCDownloader.fetch_pmcids_from_pmids: the combined Entrez
fetch-and-parse of the comma-joined batch is an oracle returning the
PubmedArticle list (none when that call failed, in which case the whole
batch is marked failed). -/
def fetch_pmcids_from_pmids (fetchRecords : String → Option (List PubmedArticle))
    (fetchRoot : String → Option Element) (pmid_batch : List String) : BatchResult :=
  match fetchRecords (strJoin "," pmid_batch) with
  | none => { failed := pmid_batch, multiple := [], documents := [] }
  | some articles => articles.foldl (processArticle fetchRoot) ⟨[], [], []⟩

/-- Fixed-size positional batching (the list slicing of
download_batch_parallel).  The Python range call raises on a zero batch
size, so the model is meaningful only for a positive one. -/
def chunkList {α : Type} (bs : Nat) (xs : List α) : List (List α) :=
  match xs with
  | [] => []
  | x :: rest => if _h : bs = 0 then [] else (x :: rest).take bs :: chunkList bs ((x :: rest).drop bs)
termination_by xs.length
decreasing_by
  simp only [List.length_drop, List.length_cons]
  omega

/-- Model of PMCDownloader.download_batch_parallel.  Batches are
submitted in input order and merged as their futures complete; completion
order is a permutation of submission order and the deterministic model
merges in submission order.  The progress callback cannot change the
three collections (any exception it raises is caught after the merge), so
it is omitted; the thread count affects timing only. -/
def download_batch_parallel (fetchRecords : String → Option (List PubmedArticle))
    (fetchRoot : String → Option Element) (id_list : List String) (batch_size : Nat) :
    BatchResult :=
  (chunkList batch_size id_list).foldl
    (fun acc batch =>
      let r := fetch_pmcids_from_pmids fetchRecords fetchRoot batch
      { failed := acc.failed ++ r.failed
        multiple := dictUpdate acc.multiple r.multiple
        documents := dictUpdate acc.documents r.documents })
    ⟨[], [], []⟩

/-- Log line emitted by a retry wrapper. -/
inductive LogLine where
  | retry (msg : String)
  | rateLimit (wait : Nat)
  | failure (msg : String)
deriving DecidableEq

/-- Observable trace of one retry-wrapper invocation: the produced value,
the attempt indices at which the wrapped operation ran, the log lines and
the backoff sleeps (in seconds), each in order. -/
structure CallTrace (α : Type) where
  result : Option α
  calls : List Nat
  logs : List LogLine
  sleeps : List Nat
deriving DecidableEq

/-- Loop of NCBIClient.safe_call from a given attempt index with the
count of attempts still allowed.  The wrapped operation (inside the rate
limiter, which only delays and then forwards the outcome) is an oracle
from the attempt index to a value or a raised exception message. -/
def safeCallGo {α : Type} (oracle : Nat → Except String α) (delay : Nat) :
    Nat → Nat → CallTrace α
  | _, 0 => { result := none, calls := [], logs := [], sleeps := [] }
  | attempt, remaining + 1 =>
    match oracle attempt with
    | .ok a => { result := some a, calls := [attempt], logs := [], sleeps := [] }
    | .error e =>
      if remaining = 0 then
        { result := none, calls := [attempt], logs := [.failure e], sleeps := [] }
      else
        let t := safeCallGo oracle delay (attempt + 1) remaining
        { result := t.result, calls := attempt :: t.calls
          logs := .retry e :: t.logs, sleeps := delay :: t.sleeps }

/-- Model of NCBIClient.safe_call with the configured attempt count and
fixed delay. -/
def safe_call {α : Type} (retry_attempts retry_delay : Nat)
    (oracle : Nat → Except String α) : CallTrace α :=
  safeCallGo oracle retry_delay 0 retry_attempts

/-- Substring containment (the Python expression needle in text). -/
def strContains (hay needle : String) : Bool :=
  decide (needle.toList <:+: hay.toList)

/-- Loop of paper_collector.safe_api_call: on an exception whose text
contains a 429 marker or the too-many-requests phrase, wait five seconds
times the one-based attempt number; otherwise wait two seconds; on the
last attempt log the final failure and stop. -/
def safeApiCallGo {α : Type} (oracle : Nat → Except String α) :
    Nat → Nat → CallTrace α
  | _, 0 => { result := none, calls := [], logs := [], sleeps := [] }
  | attempt, remaining + 1 =>
    match oracle attempt with
    | .ok a => { result := some a, calls := [attempt], logs := [], sleeps := [] }
    | .error e =>
      if remaining = 0 then
        { result := none, calls := [attempt], logs := [.failure e], sleeps := [] }
      else
        let t := safeApiCallGo oracle (attempt + 1) remaining
        if strContains e "429" || strContains e "Too Many Requests" then
          { result := t.result, calls := attempt :: t.calls
            logs := .rateLimit (5 * (attempt + 1)) :: t.logs
            sleeps := 5 * (attempt + 1) :: t.sleeps }
        else
          { result := t.result, calls := attempt :: t.calls
            logs := .retry e :: t.logs, sleeps := 2 :: t.sleeps }

/-- Model of paper_collector.safe_api_call with its hardcoded three
tries. -/
def safe_api_call {α : Type} (oracle : Nat → Except String α) : CallTrace α :=
  safeApiCallGo oracle 0 3

/-- Content of one persisted pickle file. -/
inductive FileData where
  | docs (d : List (String × PDocument))
  | failedIds (l : List String)
  | multIds (m : List (String × List String))
deriving DecidableEq

/-- File system model: a dict from filename to content.  Writing replaces
the content under an existing name and creates the file otherwise. -/
def FS : Type := List (String × FileData)

/-- Write one file. -/
def fsWrite (fs : FS) (name : String) (data : FileData) : FS :=
  dictInsert fs name data

/-- Read one file. -/
def fsRead (fs : FS) (name : String) : Option FileData :=
  dictGet fs name

/-- Model of CheckpointManager.save_checkpoint: three pickle dumps under
names keyed by the batch index (the batch count only shapes the printed
progress line). -/
def save_checkpoint (fs : FS) (batch_index : Nat) (_num_batches : Nat)
    (documents : List (String × PDocument)) (failed : List String)
    (multiple : List (String × List String)) : FS :=
  let fs := fsWrite fs ("documents_checkpoint_" ++ Nat.repr batch_index ++ ".pkl")
    (.docs documents)
  let fs := fsWrite fs ("failed_pmids_checkpoint_" ++ Nat.repr batch_index ++ ".pkl")
    (.failedIds failed)
  fsWrite fs ("multiple_pmcids_checkpoint_" ++ Nat.repr batch_index ++ ".pkl")
    (.multIds multiple)

/-- Model of CheckpointManager.save_final_results: the same serialization
under the fixed final filenames. -/
def save_final_results (fs : FS) (documents : List (String × PDocument))
    (failed : List String) (multiple : List (String × List String)) : FS :=
  let fs := fsWrite fs "documents_final.pkl" (.docs documents)
  let fs := fsWrite fs "failed_pmids_final.pkl" (.failedIds failed)
  fsWrite fs "multiple_pmcids_final.pkl" (.multIds multiple)

/-- Outcome of the download call inside the try block of main in
scripts/download_full_texts.py: a normal return of the three collections,
an operator interrupt, or any other exception. -/
inductive DownloadOutcome where
  | success (r : BatchResult)
  | interrupted
  | failed (msg : String)

/-- Model of the download phase of main in
scripts/download_full_texts.py, from the download call to the return: on
success the summary is printed, save_final_results runs, and the exit
code is zero; on a KeyboardInterrupt the script prints that it is saving
progress and returns exit code one without performing any write; on any
other exception it returns exit code one.  The result is the final file
system paired with the process exit code. -/
def main_download_phase (fs : FS) : DownloadOutcome → FS × Nat
  | .success r => (save_final_results fs r.documents r.failed r.multiple, 0)
  | .interrupted => (fs, 1)
  | .failed _ => (fs, 1)

lemma dictGet_insert_self {α : Type} (d : List (String × α)) (k : String) (v : α) :
    dictGet (dictInsert d k v) k = some v := by
  induction d with
  | nil => simp [dictInsert, dictGet]
  | cons p rest ih =>
    obtain ⟨k0, v0⟩ := p
    by_cases h : k0 = k <;> simp [dictInsert, dictGet, h, ih]

lemma dictGet_insert_ne {α : Type} (d : List (String × α)) (k kq : String) (v : α)
    (h : k ≠ kq) : dictGet (dictInsert d k v) kq = dictGet d kq := by
  induction d with
  | nil => simp [dictInsert, dictGet, h]
  | cons p rest ih =>
    obtain ⟨k0, v0⟩ := p
    by_cases h0 : k0 = k
    · subst h0
      simp [dictInsert, dictGet, h]
    · simp only [dictInsert, if_neg h0]
      by_cases h1 : k0 = kq <;> simp [dictGet, h1, ih]

lemma dictGet_ne_none_iff {α : Type} (d : List (String × α)) (k : String) :
    dictGet d k ≠ none ↔ k ∈ dictKeys d := by
  induction d with
  | nil => simp [dictGet, dictKeys]
  | cons p rest ih =>
    obtain ⟨k0, v0⟩ := p
    by_cases h : k0 = k <;> simp [dictGet, dictKeys, h, ih]
    exact fun he => (h he.symm).elim

lemma dictKeys_cons {α : Type} (a : String) (b : α) (rest : List (String × α)) :
    dictKeys ((a, b) :: rest) = a :: dictKeys rest := rfl

lemma mem_dictKeys_insert {α : Type} (d : List (String × α)) (k kq : String) (v : α) :
    kq ∈ dictKeys (dictInsert d k v) ↔ kq = k ∨ kq ∈ dictKeys d := by
  induction d with
  | nil => simp [dictInsert, dictKeys]
  | cons p rest ih =>
    obtain ⟨k0, v0⟩ := p
    by_cases h : k0 = k
    · subst h
      simp [dictInsert, dictKeys_cons, List.mem_cons]
    · simp only [dictInsert, if_neg h, dictKeys_cons, List.mem_cons, ih]
      tauto

/-- C10: for every article element and every pmcid string, the metadata
mapping of extract_metadata contains the four keys Article Type, DOI,
PubMed Link and PMC Link, and the PMC Link value is the fixed URL
template instantiated with the pmcid, whatever the XML contains. -/
theorem extract_metadata_always_has_link_keys (article : Element) (pmcid : String) :
    dictGet (extract_metadata article pmcid) "Article Type" ≠ none ∧
    dictGet (extract_metadata article pmcid) "DOI" ≠ none ∧
    dictGet (extract_metadata article pmcid) "PubMed Link" ≠ none ∧
    dictGet (extract_metadata article pmcid) "PMC Link"
      = some (some ("https://www.ncbi.nlm.nih.gov/pmc/articles/PMC" ++ pmcid ++ "/")) := by
  unfold extract_metadata
  rcases hj : findDeep article "journal-title" with _ | je <;>
    rcases ht : findDeep article "article-title" with _ | te <;>
      rcases hy : findDeepPath article "pub-date" "year" with _ | ye <;>
        simp [dictGet_insert_self, dictGet_insert_ne, dictGet, dictInsert]

/-- C2 counterexample: for a bare article element with no journal-title,
article-title or pub-date year node, the metadata mapping of
extract_metadata is missing the Journal, Title and Year Published keys
entirely instead of mapping them to placeholder strings, so the claim
fails at this input. -/
theorem extract_metadata_missing_keys_cx :
    dictGet (extract_metadata (Element.mk "article" [] none [] none) "1") "Journal" = none ∧
    dictGet (extract_metadata (Element.mk "article" [] none [] none) "1") "Title" = none ∧
    dictGet (extract_metadata (Element.mk "article" [] none [] none) "1") "Year Published"
      = none := by
  decide

/-- C2 amended: the metadata mapping always contains the Article Type,
DOI, PubMed Link and PMC Link entries, and each of these receives its
explicit placeholder string when its source node is absent from the XML;
the Journal, Title and Year Published entries, however, are present
exactly when their source nodes exist, and are missing keys otherwise. -/
theorem extract_metadata_amended (article : Element) (pmcid : String) :
    (dictGet (extract_metadata article pmcid) "Article Type" ≠ none ∧
     dictGet (extract_metadata article pmcid) "DOI" ≠ none ∧
     dictGet (extract_metadata article pmcid) "PubMed Link" ≠ none ∧
     dictGet (extract_metadata article pmcid) "PMC Link" ≠ none) ∧
    (dictGet article.attrib "article-type" = none →
      dictGet (extract_metadata article pmcid) "Article Type" = some (some "Not specified")) ∧
    (findDeepAttr article "article-id" "pub-id-type" "doi" = none →
      dictGet (extract_metadata article pmcid) "DOI" = some (some "DOI not available")) ∧
    (findDeepAttr article "article-id" "pub-id-type" "pmid" = none →
      dictGet (extract_metadata article pmcid) "PubMed Link" = some (some "Not available")) ∧
    (dictGet (extract_metadata article pmcid) "Journal" ≠ none ↔
      (findDeep article "journal-title").isSome) ∧
    (dictGet (extract_metadata article pmcid) "Title" ≠ none ↔
      (findDeep article "article-title").isSome) ∧
    (dictGet (extract_metadata article pmcid) "Year Published" ≠ none ↔
      (findDeepPath article "pub-date" "year").isSome) := by
  unfold extract_metadata attribGetD
  rcases hj : findDeep article "journal-title" with _ | je <;>
    rcases ht : findDeep article "article-title" with _ | te <;>
      rcases hy : findDeepPath article "pub-date" "year" with _ | ye <;>
        rcases hd : findDeepAttr article "article-id" "pub-id-type" "doi" with _ | de <;>
          rcases hp : findDeepAttr article "article-id" "pub-id-type" "pmid" with _ | pe <;>
            rcases ha : dictGet article.attrib "article-type" with _ | av <;>
              simp [dictGet_insert_self, dictGet_insert_ne, dictGet, dictInsert]

/-- C2 witness: the amended statement evaluated on the bare article. -/
theorem extract_metadata_amended_witness :
    dictGet (extract_metadata (Element.mk "article" [] none [] none) "0") "Article Type"
        = some (some "Not specified") ∧
    dictGet (extract_metadata (Element.mk "article" [] none [] none) "0") "DOI"
        = some (some "DOI not available") ∧
    dictGet (extract_metadata (Element.mk "article" [] none [] none) "0") "PubMed Link"
        = some (some "Not available") := by
  have h := extract_metadata_amended (Element.mk "article" [] none [] none) "0"
  exact ⟨h.2.1 rfl, h.2.2.1 rfl, h.2.2.2.1 rfl⟩

/-- Ordered concatenation of the rendering of each list entry. -/
def concatMap {α : Type} (f : α → String) : List α → String
  | [] => ""
  | x :: rest => f x ++ concatMap f rest

lemma str_append_empty (s : String) : s ++ "" = s := by
  apply String.ext
  simp [String.data_append]

lemma str_empty_append (s : String) : "" ++ s = s := by
  apply String.ext
  simp [String.data_append]

lemma foldl_append_concatMap {α : Type} (f : α → String) (l : List α) (init : String) :
    l.foldl (fun acc x => acc ++ f x) init = init ++ concatMap f l := by
  induction l generalizing init with
  | nil => simp [concatMap, str_append_empty]
  | cons x rest ih => simp [concatMap, ih, String.append_assoc]

lemma foldl_append2_concatMap {α : Type} (f g : α → String) (l : List α) (init : String) :
    l.foldl (fun acc x => acc ++ f x ++ g x) init
      = init ++ concatMap (fun x => f x ++ g x) l := by
  induction l generalizing init with
  | nil => simp [concatMap, str_append_empty]
  | cons x rest ih =>
    simp only [List.foldl_cons, concatMap]
    rw [ih]
    simp [String.append_assoc]

/-- Rendering of the body fallback described by the spec: concatenate the
text of every paragraph found anywhere inside the body.  Defined from the
words of the spec for comparison against extract_body (this matches what
paper_collector.get_pmc_full_text does on its own fallback path). -/
def bodyParagraphsAnywhere (article : Element) : String :=
  match findDeep article "body" with
  | none => ""
  | some body =>
    concatMap (fun p => pyStrip (strJoin "" p.itertext) ++ "\n\n") (findallDeep body "p")

/-- C3 counterexample: for an article whose body has no sec children and
whose only paragraph sits inside a non-sec wrapper, extract_body returns
the empty string, while the fallback described by the claim (every
paragraph anywhere inside the body) would return the paragraph text; the
claim fails at this input. -/
theorem extract_body_fallback_cx :
    extract_body (Element.mk "article" [] none
      [Element.mk "body" [] none
        [Element.mk "boxed-text" [] none
          [Element.mk "p" [] (some "X") [] none] none] none] none) = "" ∧
    bodyParagraphsAnywhere (Element.mk "article" [] none
      [Element.mk "body" [] none
        [Element.mk "boxed-text" [] none
          [Element.mk "p" [] (some "X") [] none] none] none] none) = "X\n\n" ∧
    ("" : String) ≠ "X\n\n" := by
  exact ⟨by decide, by decide, by decide⟩

/-- C3 amended: extract_body has no anywhere-inside fallback.  When the
body element has no sec children, the output is exactly the concatenation
of the stripped text of the direct paragraph children of the body, each
followed by a blank line, with no section label; paragraphs nested deeper
inside the body are dropped.  (The fallback over every paragraph anywhere
under the body, labeled as one section, exists only in the per-DOI
collector, paper_collector.get_pmc_full_text.) -/
theorem extract_body_amended (article body : Element)
    (hb : findDeep article "body" = some body)
    (hsec : childrenTag body "sec" = []) :
    extract_body article
      = concatMap (fun p => pyStrip (strJoin "" p.itertext) ++ "\n\n") (childrenTag body "p") := by
  simp [extract_body, hb, hsec, foldl_append2_concatMap, str_empty_append]

/-- C3 witness: the amended statement evaluated on a body with one direct
paragraph child. -/
theorem extract_body_amended_witness :
    extract_body (Element.mk "article" [] none
      [Element.mk "body" [] none [Element.mk "p" [] (some "Y") [] none] none] none)
      = "Y\n\n" := by
  have h := extract_body_amended
    (Element.mk "article" [] none
      [Element.mk "body" [] none [Element.mk "p" [] (some "Y") [] none] none] none)
    (Element.mk "body" [] none [Element.mk "p" [] (some "Y") [] none] none)
    (by rfl) (by rfl)
  rw [h]
  decide

lemma extractSecChildren_eq (cs : List Element) (level : Nat) (acc : String) :
    extractSecChildren cs level acc
      = acc ++ concatMap (fun s => extract_sections s (level + 1))
          (cs.filter (fun c => c.tag == "sec")) := by
  induction cs generalizing acc with
  | nil => simp [extractSecChildren, concatMap, str_append_empty]
  | cons c rest ih =>
    cases h : (c.tag == "sec") with
    | true =>
      simp only [extractSecChildren, h, if_true, List.filter_cons, concatMap]
      rw [ih]
      simp [String.append_assoc]
    | false =>
      simp only [extractSecChildren, h, Bool.false_eq_true, if_false, List.filter_cons]
      rw [ih]

lemma strRepeat_hash_count (n : Nat) : (strRepeat " #" n).toList.count '#' = n := by
  induction n with
  | zero => decide
  | succ m ih =>
    have h0 : strRepeat " #" (m + 1) = " #" ++ strRepeat " #" m := rfl
    have h1 : (" #".data.count '#') = 1 := by decide
    rw [h0]
    simp [String.toList, String.data_append, List.count_append, ih, h1] at *

/-- C8: the text emitted by extract_sections for a section element is
exactly, in this order: the title line (when a title child exists), whose
marker prefix contains as many hash characters as the nesting level, then
the concatenated text of each direct paragraph child followed by a blank
line, then the recursive rendering of each nested sec child at the next
level in document order. -/
theorem extract_sections_order (parent : Element) (level : Nat) :
    (extract_sections parent level
      = (match findChild parent "title" with
         | some t => strRepeat " #" level ++ " " ++ pyStrip (strJoin "" t.itertext) ++ "\n"
         | none => "")
        ++ concatMap (fun p => pyStrip (strJoin "" p.itertext) ++ "\n\n") (childrenTag parent "p")
        ++ concatMap (fun s => extract_sections s (level + 1)) (childrenTag parent "sec")) ∧
    (strRepeat " #" level).toList.count '#' = level := by
  constructor
  · cases parent with
    | mk tg a tx cs tl =>
      simp only [extract_sections]
      rw [extractSecChildren_eq, foldl_append2_concatMap]
      simp only [childrenTag, Element.children]
  · exact strRepeat_hash_count level

lemma safeCallGo_succ {α : Type} (oracle : Nat → Except String α) (delay attempt r : Nat) :
    safeCallGo oracle delay attempt (r + 1) =
      match oracle attempt with
      | Except.ok a => { result := some a, calls := [attempt], logs := [], sleeps := [] }
      | Except.error e =>
        if r = 0 then
          { result := none, calls := [attempt], logs := [LogLine.failure e], sleeps := [] }
        else
          { result := (safeCallGo oracle delay (attempt + 1) r).result
            calls := attempt :: (safeCallGo oracle delay (attempt + 1) r).calls
            logs := LogLine.retry e :: (safeCallGo oracle delay (attempt + 1) r).logs
            sleeps := delay :: (safeCallGo oracle delay (attempt + 1) r).sleeps } := rfl

lemma safeCallGo_all_fail {α : Type} (oracle : Nat → Except String α) (msgs : Nat → String)
    (delay : Nat) (r start : Nat) (hr : 1 ≤ r)
    (hfail : ∀ i, start ≤ i → i < start + r → oracle i = Except.error (msgs i)) :
    safeCallGo oracle delay start r =
      { result := none
        calls := List.range' start r
        logs := (List.range' start (r - 1)).map (fun i => LogLine.retry (msgs i))
          ++ [LogLine.failure (msgs (start + r - 1))]
        sleeps := List.replicate (r - 1) delay } := by
  induction r generalizing start with
  | zero => omega
  | succ r ih =>
    have h0 : oracle start = Except.error (msgs start) := hfail start le_rfl (by omega)
    cases r with
    | zero =>
      simp [safeCallGo, h0, List.range']
    | succ r2 =>
      have hrec := ih (start + 1) (by omega)
        (fun i hi1 hi2 => hfail i (by omega) (by omega))
      have hne : ¬(r2 + 1 = 0) := by omega
      have e2 : start + 1 + (r2 + 1) - 1 = start + (r2 + 1 + 1) - 1 := by omega
      rw [safeCallGo_succ, h0]
      simp only [if_neg hne]
      rw [hrec]
      simp [List.range'_succ, List.replicate_succ, e2]

lemma safeCallGo_first_ok {α : Type} (oracle : Nat → Except String α) (msgs : Nat → String)
    (delay : Nat) (r start i : Nat) (a : α)
    (hi1 : start ≤ i) (hi2 : i < start + r)
    (hfail : ∀ j, start ≤ j → j < i → oracle j = Except.error (msgs j))
    (hok : oracle i = Except.ok a) :
    (safeCallGo oracle delay start r).result = some a := by
  induction r generalizing start with
  | zero => omega
  | succ r ih =>
    by_cases hstart : i = start
    · subst hstart
      simp [safeCallGo, hok]
    · have h0 : oracle start = Except.error (msgs start) := hfail start le_rfl (by omega)
      have hr : r ≠ 0 := by omega
      simp only [safeCallGo, h0, if_neg hr]
      exact ih (start + 1) (by omega) (by omega)
        (fun j hj1 hj2 => hfail j (by omega) hj2)

/-- C6: when every one of the configured attempts of safe_call raises, the
wrapper runs exactly that many tries, sleeps the fixed retry delay between
consecutive attempts, logs one final failure line at the end and returns
none; and when some attempt succeeds after earlier failures, the value of
that attempt is returned. -/
theorem safe_call_contract {α : Type} (n delay : Nat) (oracle : Nat → Except String α)
    (msgs : Nat → String) :
    (1 ≤ n → (∀ i, i < n → oracle i = Except.error (msgs i)) →
      safe_call n delay oracle =
        { result := none
          calls := List.range n
          logs := (List.range (n - 1)).map (fun i => LogLine.retry (msgs i))
            ++ [LogLine.failure (msgs (n - 1))]
          sleeps := List.replicate (n - 1) delay }) ∧
    (∀ i a, i < n → (∀ j, j < i → oracle j = Except.error (msgs j)) →
      oracle i = Except.ok a → (safe_call n delay oracle).result = some a) := by
  constructor
  · intro hn hfail
    have h := safeCallGo_all_fail oracle msgs delay n 0 hn
      (fun i _ h2 => hfail i (by omega))
    simpa [safe_call, List.range_eq_range'] using h
  · intro i a h1 h2 h3
    exact safeCallGo_first_ok oracle msgs delay n 0 i a (by omega) (by omega)
      (fun j _ hj2 => h2 j hj2) h3

/-- C6 witness: the contract evaluated on an always-failing operation and
on one that succeeds at the second attempt, with three attempts and a two
second delay. -/
theorem safe_call_contract_witness :
    safe_call 3 2 (fun _ => (Except.error "boom" : Except String Nat)) =
      { result := none, calls := [0, 1, 2]
        logs := [LogLine.retry "boom", LogLine.retry "boom", LogLine.failure "boom"]
        sleeps := [2, 2] } ∧
    (safe_call 3 2 (fun i => if i = 1 then Except.ok 5 else Except.error "boom")).result
      = some 5 := by
  constructor
  · have h := (safe_call_contract 3 2 (fun _ => (Except.error "boom" : Except String Nat))
      (fun _ => "boom")).1 (by omega) (fun i _ => rfl)
    rw [h]
    decide
  · exact (safe_call_contract 3 2 (fun i => if i = 1 then Except.ok 5 else Except.error "boom")
      (fun _ => "boom")).2 1 5 (by omega)
      (fun j hj => by
        have hj0 : j = 0 := by omega
        subst hj0
        rfl)
      rfl

/-- C7: in the per-DOI collector wrapper, two successive failures whose
exception text marks a rate-limit rejection are followed by backoffs of
five and then ten seconds (five times the one-based attempt number)
instead of the fixed two second delay, and a success on the third attempt
returns the value with no final-failure log for the operation. -/
theorem safe_api_call_rate_limit_backoff {α : Type} (oracle : Nat → Except String α)
    (e0 e1 : String) (a : α)
    (h0 : oracle 0 = Except.error e0)
    (hr0 : strContains e0 "429" = true ∨ strContains e0 "Too Many Requests" = true)
    (h1 : oracle 1 = Except.error e1)
    (hr1 : strContains e1 "429" = true ∨ strContains e1 "Too Many Requests" = true)
    (h2 : oracle 2 = Except.ok a) :
    safe_api_call oracle =
      { result := some a, calls := [0, 1, 2]
        logs := [LogLine.rateLimit 5, LogLine.rateLimit 10], sleeps := [5, 10] } ∧
    ∀ m, LogLine.failure m ∉ (safe_api_call oracle).logs := by
  have hb0 : (strContains e0 "429" || strContains e0 "Too Many Requests") = true := by
    rcases hr0 with h | h <;> simp [h]
  have hb1 : (strContains e1 "429" || strContains e1 "Too Many Requests") = true := by
    rcases hr1 with h | h <;> simp [h]
  have heq : safe_api_call oracle =
      { result := some a, calls := [0, 1, 2]
        logs := [LogLine.rateLimit 5, LogLine.rateLimit 10], sleeps := [5, 10] } := by
    simp [safe_api_call, safeApiCallGo, h0, h1, h2, hb0, hb1]
  refine ⟨heq, ?_⟩
  intro m
  rw [heq]
  simp

/-- C7 witness: the backoff contract evaluated on an operation failing
twice with a 429 message and succeeding on the third attempt. -/
theorem safe_api_call_rate_limit_backoff_witness :
    safe_api_call
        (fun i => if i < 2 then (Except.error "HTTP 429" : Except String Nat) else Except.ok 7) =
      { result := some 7, calls := [0, 1, 2]
        logs := [LogLine.rateLimit 5, LogLine.rateLimit 10], sleeps := [5, 10] } := by
  exact (safe_api_call_rate_limit_backoff
    (fun i => if i < 2 then (Except.error "HTTP 429" : Except String Nat) else Except.ok 7)
    "HTTP 429" "HTTP 429" 7 rfl (Or.inl (by decide)) rfl (Or.inl (by decide)) rfl).1

/-- Numeric value of a decimal digit character. -/
def charDigit (c : Char) : Nat := c.toNat - 48

/-- Value of a decimal digit string, most significant digit first. -/
def digitsVal (l : List Char) : Nat := l.foldl (fun a c => 10 * a + charDigit c) 0

lemma toDigitsCore_shift (fuel : Nat) : ∀ (n : Nat) (ds : List Char), n < fuel →
    Nat.toDigitsCore 10 fuel n ds = Nat.toDigitsCore 10 fuel n [] ++ ds := by
  induction fuel with
  | zero => omega
  | succ f ih =>
    intro n ds _
    simp only [Nat.toDigitsCore]
    by_cases h10 : n / 10 = 0
    · simp [h10]
    · have hn : 0 < n := by
        rcases Nat.eq_zero_or_pos n with h | h
        · subst h; simp at h10
        · exact h
      have hlt : n / 10 < f := by
        have := Nat.div_lt_self hn (by omega : 1 < 10)
        omega
      simp only [h10, if_neg h10]
      rw [ih (n / 10) (Nat.digitChar (n % 10) :: ds) hlt,
        ih (n / 10) [Nat.digitChar (n % 10)] hlt]
      simp

lemma toDigitsCore_fuel (n : Nat) : ∀ f1 f2 : Nat, n < f1 → n < f2 →
    Nat.toDigitsCore 10 f1 n [] = Nat.toDigitsCore 10 f2 n [] := by
  induction n using Nat.strong_induction_on with
  | _ n ih =>
    intro f1 f2 h1 h2
    cases f1 with
    | zero => omega
    | succ g1 =>
      cases f2 with
      | zero => omega
      | succ g2 =>
        simp only [Nat.toDigitsCore]
        by_cases h10 : n / 10 = 0
        · simp [h10]
        · have hn : 0 < n := by
            rcases Nat.eq_zero_or_pos n with h | h
            · subst h; simp at h10
            · exact h
          have hdl : n / 10 < n := Nat.div_lt_self hn (by omega : 1 < 10)
          simp only [h10, if_neg h10]
          rw [toDigitsCore_shift g1 (n / 10) _ (by omega),
            toDigitsCore_shift g2 (n / 10) _ (by omega)]
          rw [ih (n / 10) hdl g1 g2 (by omega) (by omega)]

lemma toDigits_eq_small {n : Nat} (h : n < 10) : Nat.toDigits 10 n = [Nat.digitChar n] := by
  have h10 : n / 10 = 0 := Nat.div_eq_of_lt h
  have hm : n % 10 = n := Nat.mod_eq_of_lt h
  simp [Nat.toDigits, Nat.toDigitsCore, h10, hm]

lemma toDigits_eq_step {n : Nat} (h : 10 ≤ n) :
    Nat.toDigits 10 n = Nat.toDigits 10 (n / 10) ++ [Nat.digitChar (n % 10)] := by
  have h10 : ¬(n / 10 = 0) := by
    have h1 : 1 ≤ n / 10 := (Nat.one_le_div_iff (by omega)).mpr h
    omega
  have hdl : n / 10 < n := Nat.div_lt_self (by omega) (by omega : 1 < 10)
  show Nat.toDigitsCore 10 (n + 1) n [] = _
  simp only [Nat.toDigitsCore, if_neg h10]
  rw [toDigitsCore_shift n (n / 10) _ (by omega)]
  rw [toDigitsCore_fuel (n / 10) n (n / 10 + 1) (by omega) (by omega)]
  rfl

lemma digitsVal_append_singleton (l : List Char) (c : Char) :
    digitsVal (l ++ [c]) = 10 * digitsVal l + charDigit c := by
  simp [digitsVal, List.foldl_append]

lemma charDigit_digitChar {d : Nat} (h : d < 10) : charDigit (Nat.digitChar d) = d := by
  interval_cases d <;> rfl

lemma digitsVal_toDigits (n : Nat) : digitsVal (Nat.toDigits 10 n) = n := by
  induction n using Nat.strong_induction_on with
  | _ n ih =>
    by_cases h : n < 10
    · rw [toDigits_eq_small h]
      simp [digitsVal, charDigit_digitChar h]
    · push_neg at h
      have hdl : n / 10 < n := Nat.div_lt_self (by omega) (by omega : 1 < 10)
      rw [toDigits_eq_step h, digitsVal_append_singleton, ih (n / 10) hdl,
        charDigit_digitChar (Nat.mod_lt n (by omega))]
      omega

lemma natRepr_injective : Function.Injective Nat.repr := by
  intro m n h
  have hlist : Nat.toDigits 10 m = Nat.toDigits 10 n := congrArg String.data h
  have hv := congrArg digitsVal hlist
  rwa [digitsVal_toDigits, digitsVal_toDigits] at hv

lemma concat_ne_of_head_ne {c1 c2 : Char} (p1 p2 s1 s2 : String)
    (h1 : p1.data.head? = some c1) (h2 : p2.data.head? = some c2) (hne : c1 ≠ c2) :
    p1 ++ s1 ≠ p2 ++ s2 := by
  intro he
  have hd := congrArg (fun s => s.data.head?) he
  simp only [String.data_append, List.head?_append, h1, h2] at hd
  simp [Option.or] at hd
  exact hne hd

lemma ckpt_name_inj (p : String) {j k : Nat} (h : j ≠ k) :
    p ++ Nat.repr j ++ ".pkl" ≠ p ++ Nat.repr k ++ ".pkl" := by
  intro he
  apply h
  apply natRepr_injective
  have hd := congrArg String.data he
  simp only [String.data_append, List.append_assoc] at hd
  have h1 := List.append_cancel_left hd
  have h2 := List.append_cancel_right h1
  exact String.ext h2

lemma ckpt_name_ne_df (a b : String) :
    ("documents_checkpoint_" ++ a ++ ".pkl") ≠ ("failed_pmids_checkpoint_" ++ b ++ ".pkl") := by
  rw [String.append_assoc, String.append_assoc]
  exact @concat_ne_of_head_ne 'd' 'f' _ _ _ _ (by decide) (by decide) (by decide)

lemma ckpt_name_ne_dm (a b : String) :
    ("documents_checkpoint_" ++ a ++ ".pkl") ≠ ("multiple_pmcids_checkpoint_" ++ b ++ ".pkl") := by
  rw [String.append_assoc, String.append_assoc]
  exact @concat_ne_of_head_ne 'd' 'm' _ _ _ _ (by decide) (by decide) (by decide)

lemma ckpt_name_ne_fm (a b : String) :
    ("failed_pmids_checkpoint_" ++ a ++ ".pkl") ≠ ("multiple_pmcids_checkpoint_" ++ b ++ ".pkl") := by
  rw [String.append_assoc, String.append_assoc]
  exact @concat_ne_of_head_ne 'f' 'm' _ _ _ _ (by decide) (by decide) (by decide)

/-- C9: saving a checkpoint at one index writes only the three filenames
keyed by that index; every file written by an earlier save_checkpoint at
a different index keeps exactly the content of its original write. -/
theorem save_checkpoint_frame (fs : FS) (j k nbj nbk : Nat) (hjk : j ≠ k)
    (dj dk : List (String × PDocument)) (fj fk : List String)
    (mj mk2 : List (String × List String)) :
    (fsRead (save_checkpoint (save_checkpoint fs j nbj dj fj mj) k nbk dk fk mk2)
        ("documents_checkpoint_" ++ Nat.repr j ++ ".pkl") = some (FileData.docs dj) ∧
     fsRead (save_checkpoint (save_checkpoint fs j nbj dj fj mj) k nbk dk fk mk2)
        ("failed_pmids_checkpoint_" ++ Nat.repr j ++ ".pkl") = some (FileData.failedIds fj) ∧
     fsRead (save_checkpoint (save_checkpoint fs j nbj dj fj mj) k nbk dk fk mk2)
        ("multiple_pmcids_checkpoint_" ++ Nat.repr j ++ ".pkl") = some (FileData.multIds mj)) ∧
    (∀ name, fsRead (save_checkpoint (save_checkpoint fs j nbj dj fj mj) k nbk dk fk mk2) name
        ≠ fsRead (save_checkpoint fs j nbj dj fj mj) name →
      name = "documents_checkpoint_" ++ Nat.repr k ++ ".pkl" ∨
      name = "failed_pmids_checkpoint_" ++ Nat.repr k ++ ".pkl" ∨
      name = "multiple_pmcids_checkpoint_" ++ Nat.repr k ++ ".pkl") := by
  constructor
  · refine ⟨?_, ?_, ?_⟩
    · simp only [save_checkpoint, fsRead, fsWrite]
      rw [dictGet_insert_ne _ _ _ _ (Ne.symm (ckpt_name_ne_dm _ _)),
        dictGet_insert_ne _ _ _ _ (Ne.symm (ckpt_name_ne_df _ _)),
        dictGet_insert_ne _ _ _ _ (ckpt_name_inj _ (Ne.symm hjk)),
        dictGet_insert_ne _ _ _ _ (Ne.symm (ckpt_name_ne_dm _ _)),
        dictGet_insert_ne _ _ _ _ (Ne.symm (ckpt_name_ne_df _ _)),
        dictGet_insert_self]
    · simp only [save_checkpoint, fsRead, fsWrite]
      rw [dictGet_insert_ne _ _ _ _ (Ne.symm (ckpt_name_ne_fm _ _)),
        dictGet_insert_ne _ _ _ _ (ckpt_name_inj _ (Ne.symm hjk)),
        dictGet_insert_ne _ _ _ _ (ckpt_name_ne_df _ _),
        dictGet_insert_ne _ _ _ _ (Ne.symm (ckpt_name_ne_fm _ _)),
        dictGet_insert_self]
    · simp only [save_checkpoint, fsRead, fsWrite]
      rw [dictGet_insert_ne _ _ _ _ (ckpt_name_inj _ (Ne.symm hjk)),
        dictGet_insert_ne _ _ _ _ (ckpt_name_ne_fm _ _),
        dictGet_insert_ne _ _ _ _ (ckpt_name_ne_dm _ _),
        dictGet_insert_self]
  · intro name hne
    by_contra hall
    push_neg at hall
    obtain ⟨hn1, hn2, hn3⟩ := hall
    apply hne
    simp only [save_checkpoint, fsRead, fsWrite]
    rw [dictGet_insert_ne _ _ _ _ (fun he => hn3 he.symm),
      dictGet_insert_ne _ _ _ _ (fun he => hn2 he.symm),
      dictGet_insert_ne _ _ _ _ (fun he => hn1 he.symm)]

/-- C9 witness: checkpoint 0 then checkpoint 1 with a superset of the
documents; the three checkpoint-0 files still hold their original
content. -/
theorem save_checkpoint_frame_witness :
    fsRead (save_checkpoint (save_checkpoint [] 0 2 [] ["x"] []) 1 2
        [("1", ⟨[], ""⟩)] [] []) ("documents_checkpoint_" ++ Nat.repr 0 ++ ".pkl")
      = some (FileData.docs []) ∧
    fsRead (save_checkpoint (save_checkpoint [] 0 2 [] ["x"] []) 1 2
        [("1", ⟨[], ""⟩)] [] []) ("failed_pmids_checkpoint_" ++ Nat.repr 0 ++ ".pkl")
      = some (FileData.failedIds ["x"]) ∧
    fsRead (save_checkpoint (save_checkpoint [] 0 2 [] ["x"] []) 1 2
        [("1", ⟨[], ""⟩)] [] []) ("multiple_pmcids_checkpoint_" ++ Nat.repr 0 ++ ".pkl")
      = some (FileData.multIds []) := by
  exact (save_checkpoint_frame [] 0 1 2 2 (by decide) [] [("1", ⟨[], ""⟩)] ["x"] [] [] []).1

/-- C5: evaluation of the interrupt path of the download phase.  The
script prints that it is saving progress, but the file system is returned
untouched: the final-results save path never runs on an interrupt, while
the success path does run it, and running it would have written the three
final files.  The exit code on interrupt is one, hence non-zero. -/
theorem main_download_phase_interrupt_divergence :
    (∀ fs : FS, main_download_phase fs DownloadOutcome.interrupted = (fs, 1)) ∧
    (∀ (fs : FS) (r : BatchResult), main_download_phase fs (DownloadOutcome.success r)
      = (save_final_results fs r.documents r.failed r.multiple, 0)) ∧
    save_final_results [] [] [] [] ≠ ([] : FS) ∧
    (main_download_phase [] DownloadOutcome.interrupted).2 ≠ 0 := by
  refine ⟨fun fs => rfl, fun fs r => rfl, ?_, by decide⟩
  intro h
  have : fsRead (save_final_results [] [] [] []) "documents_final.pkl"
      = fsRead ([] : FS) "documents_final.pkl" := by rw [h]
  simp [save_final_results, fsWrite, fsRead, dictGet, dictInsert] at this

/-- PMIDs carried by a list of fetched article records (records whose
pmid extraction fails contribute nothing). -/
def pmidsOf (arts : List PubmedArticle) : List String :=
  arts.filterMap (fun a => a.pmid)

/-- One identifier landing in exactly one of the two outcome collections
of a batch result: either a key of documents and not a member of failed,
or a member of failed and not a key of documents. -/
def exactlyOne (r : BatchResult) (p : String) : Prop :=
  (p ∈ dictKeys r.documents ∧ p ∉ r.failed) ∨ (p ∉ dictKeys r.documents ∧ p ∈ r.failed)

lemma processArticle_none {fetchRoot : String → Option Element} {acc : BatchResult}
    {art : PubmedArticle} (h : art.pmid = none) :
    processArticle fetchRoot acc art = acc := by
  simp [processArticle, h]

lemma processArticle_some (fetchRoot : String → Option Element) (acc : BatchResult)
    (art : PubmedArticle) (q : String) (h : art.pmid = some q) :
    (∃ doc, (processArticle fetchRoot acc art).failed = acc.failed ∧
      (processArticle fetchRoot acc art).documents = dictInsert acc.documents q doc) ∨
    ((processArticle fetchRoot acc art).failed = acc.failed ++ [q] ∧
      (processArticle fetchRoot acc art).documents = acc.documents) := by
  simp only [processArticle, h]
  rcases hids : art.articleIds with _ | ids
  · right
    simp
  · rcases hf : ids.filter (fun s => pyStartsWith s "PMC") with _ | ⟨first, rest⟩
    · right
      simp [hf]
    · rcases hdl : download_article fetchRoot first with _ | doc
      · right
        by_cases hlen : 0 < rest.length <;> simp [hf, hdl, hlen]
      · left
        refine ⟨{ doc with metadata := dictInsert doc.metadata "PMCID" (some first) }, ?_, ?_⟩ <;>
          by_cases hlen : 0 < rest.length <;> simp [hf, hdl, hlen]

lemma processArticle_preserves (fetchRoot : String → Option Element) (acc : BatchResult)
    (art : PubmedArticle) (p : String) (h : art.pmid ≠ some p) :
    dictGet (processArticle fetchRoot acc art).multiple p = dictGet acc.multiple p ∧
    dictGet (processArticle fetchRoot acc art).documents p = dictGet acc.documents p ∧
    (p ∈ (processArticle fetchRoot acc art).failed ↔ p ∈ acc.failed) := by
  rcases hq : art.pmid with _ | q
  · simp [processArticle_none hq]
  · have hpq : q ≠ p := fun he => h (by rw [hq, he])
    simp only [processArticle, hq]
    rcases hids : art.articleIds with _ | ids
    · simp [List.mem_append, Ne.symm hpq]
    · rcases hf : ids.filter (fun s => pyStartsWith s "PMC") with _ | ⟨first, rest⟩
      · simp [hf, List.mem_append, Ne.symm hpq]
      · rcases hdl : download_article fetchRoot first with _ | doc <;>
          by_cases hlen : 0 < rest.length <;>
            simp [hf, hdl, hlen, dictGet_insert_ne _ _ _ _ hpq, List.mem_append, Ne.symm hpq]

lemma processArticle_multi (fetchRoot : String → Option Element) (acc : BatchResult)
    (art : PubmedArticle) (q : String) (ids : List String) (first : String)
    (rest : List String) (hq : art.pmid = some q) (hids : art.articleIds = some ids)
    (hf : ids.filter (fun s => pyStartsWith s "PMC") = first :: rest) (hr : rest ≠ []) :
    (processArticle fetchRoot acc art).multiple = dictInsert acc.multiple q (first :: rest) ∧
    (match download_article fetchRoot first with
     | some doc =>
        (processArticle fetchRoot acc art).documents = dictInsert acc.documents q
          { doc with metadata := dictInsert doc.metadata "PMCID" (some first) } ∧
        (processArticle fetchRoot acc art).failed = acc.failed
     | none =>
        (processArticle fetchRoot acc art).failed = acc.failed ++ [q] ∧
        (processArticle fetchRoot acc art).documents = acc.documents) := by
  have hlen : 0 < rest.length := by
    cases rest with
    | nil => exact absurd rfl hr
    | cons b bs => simp
  simp only [processArticle, hq, hids, hf]
  rcases hdl : download_article fetchRoot first with _ | doc <;> simp [hdl, hlen]

lemma foldArts_outcome (fetchRoot : String → Option Element) (arts : List PubmedArticle) :
    ∀ (acc : BatchResult) (p : String),
      (p ∈ (arts.foldl (processArticle fetchRoot) acc).failed ∨
        p ∈ dictKeys (arts.foldl (processArticle fetchRoot) acc).documents)
      ↔ (p ∈ acc.failed ∨ p ∈ dictKeys acc.documents ∨ p ∈ pmidsOf arts) := by
  induction arts with
  | nil =>
    intro acc p
    simp [pmidsOf]
  | cons a rest ih =>
    intro acc p
    simp only [List.foldl_cons]
    rw [ih]
    rcases hq : a.pmid with _ | q
    · rw [processArticle_none hq]
      simp [pmidsOf, List.filterMap_cons, hq]
    · rcases processArticle_some fetchRoot acc a q hq with ⟨doc, hfl, hdc⟩ | ⟨hfl, hdc⟩
      · rw [hfl, hdc]
        simp only [mem_dictKeys_insert, pmidsOf, List.filterMap_cons, hq, List.mem_cons]
        tauto
      · rw [hfl, hdc]
        simp only [List.mem_append, List.mem_singleton, pmidsOf, List.filterMap_cons, hq,
          List.mem_cons]
        tauto

lemma foldArts_exclusive (fetchRoot : String → Option Element) (arts : List PubmedArticle) :
    ∀ (acc : BatchResult) (p : String),
      (pmidsOf arts).Nodup →
      ¬(p ∈ acc.failed ∧ p ∈ dictKeys acc.documents) →
      (p ∈ pmidsOf arts → p ∉ acc.failed ∧ p ∉ dictKeys acc.documents) →
      ¬(p ∈ (arts.foldl (processArticle fetchRoot) acc).failed ∧
        p ∈ dictKeys (arts.foldl (processArticle fetchRoot) acc).documents) := by
  induction arts with
  | nil =>
    intro acc p _ hex _
    simpa using hex
  | cons a rest ih =>
    intro acc p hnd hex hfresh
    simp only [List.foldl_cons]
    rcases hq : a.pmid with _ | q
    · rw [processArticle_none hq]
      have hpm : pmidsOf (a :: rest) = pmidsOf rest := by
        simp [pmidsOf, List.filterMap_cons, hq]
      rw [hpm] at hnd hfresh
      exact ih acc p hnd hex hfresh
    · have hpm : pmidsOf (a :: rest) = q :: pmidsOf rest := by
        simp [pmidsOf, List.filterMap_cons, hq]
      rw [hpm] at hnd hfresh
      have hqrest : q ∉ pmidsOf rest := (List.nodup_cons.mp hnd).1
      have hndrest : (pmidsOf rest).Nodup := (List.nodup_cons.mp hnd).2
      rcases processArticle_some fetchRoot acc a q hq with ⟨doc, hfl, hdc⟩ | ⟨hfl, hdc⟩
      · apply ih _ p hndrest
        · rintro ⟨h1, h2⟩
          rw [hfl] at h1
          rw [hdc, mem_dictKeys_insert] at h2
          rcases h2 with h2 | h2
          · subst h2
            exact (hfresh (by simp)).1 h1
          · exact hex ⟨h1, h2⟩
        · intro hp
          have hpq : p ≠ q := fun he => hqrest (he ▸ hp)
          constructor
          · rw [hfl]
            exact (hfresh (by simp [hp])).1
          · rw [hdc, mem_dictKeys_insert]
            rintro (he | hk)
            · exact hpq he
            · exact (hfresh (by simp [hp])).2 hk
      · apply ih _ p hndrest
        · rintro ⟨h1, h2⟩
          rw [hdc] at h2
          rw [hfl, List.mem_append] at h1
          rcases h1 with h1 | h1
          · exact hex ⟨h1, h2⟩
          · have hpq : p = q := by simpa using h1
            subst hpq
            exact (hfresh (by simp)).2 h2
        · intro hp
          have hpq : p ≠ q := fun he => hqrest (he ▸ hp)
          constructor
          · rw [hfl, List.mem_append]
            rintro (hc | hc)
            · exact (hfresh (by simp [hp])).1 hc
            · exact hpq (by simpa using hc)
          · rw [hdc]
            exact (hfresh (by simp [hp])).2

lemma foldArts_preserves (fetchRoot : String → Option Element) (arts : List PubmedArticle) :
    ∀ (acc : BatchResult) (q : String), q ∉ pmidsOf arts →
      dictGet (arts.foldl (processArticle fetchRoot) acc).multiple q
          = dictGet acc.multiple q ∧
      dictGet (arts.foldl (processArticle fetchRoot) acc).documents q
          = dictGet acc.documents q ∧
      (q ∈ (arts.foldl (processArticle fetchRoot) acc).failed ↔ q ∈ acc.failed) := by
  induction arts with
  | nil =>
    intro acc q _
    simp
  | cons a rest ih =>
    intro acc q hq
    simp only [pmidsOf] at hq
    have hq1 : a.pmid ≠ some q := fun he =>
      hq (List.mem_filterMap.mpr ⟨a, by simp, he⟩)
    have hq2 : q ∉ pmidsOf rest := fun hc => by
      rcases List.mem_filterMap.mp hc with ⟨b, hb, hfb⟩
      exact hq (List.mem_filterMap.mpr ⟨b, by simp [hb], hfb⟩)
    simp only [List.foldl_cons]
    have hstep := processArticle_preserves fetchRoot acc a q hq1
    have hrest := ih (processArticle fetchRoot acc a) q hq2
    exact ⟨hrest.1.trans hstep.1, hrest.2.1.trans hstep.2.1, hrest.2.2.trans hstep.2.2⟩

lemma mem_dictKeys_update {α : Type} (d d2 : List (String × α)) (p : String) :
    p ∈ dictKeys (dictUpdate d d2) ↔ p ∈ dictKeys d ∨ p ∈ dictKeys d2 := by
  induction d2 generalizing d with
  | nil => simp [dictUpdate, dictKeys]
  | cons kv rest ih =>
    obtain ⟨k, v⟩ := kv
    have he : dictUpdate d ((k, v) :: rest) = dictUpdate (dictInsert d k v) rest := rfl
    rw [he, ih, mem_dictKeys_insert]
    simp only [dictKeys_cons, List.mem_cons]
    tauto

/-- Merge of a completed batch into the running totals, as performed by
the future-draining loop of download_batch_parallel. -/
def mergeAcc (acc rb : BatchResult) : BatchResult :=
  { failed := acc.failed ++ rb.failed
    multiple := dictUpdate acc.multiple rb.multiple
    documents := dictUpdate acc.documents rb.documents }

lemma download_batch_parallel_eq (fetchRecords : String → Option (List PubmedArticle))
    (fetchRoot : String → Option Element) (id_list : List String) (batch_size : Nat) :
    download_batch_parallel fetchRecords fetchRoot id_list batch_size
      = (chunkList batch_size id_list).foldl
          (fun acc b => mergeAcc acc (fetch_pmcids_from_pmids fetchRecords fetchRoot b))
          ⟨[], [], []⟩ := rfl

lemma mergeAcc_preserve (acc rb : BatchResult) (p : String)
    (h1 : p ∉ rb.failed) (h2 : p ∉ dictKeys rb.documents) :
    (p ∈ (mergeAcc acc rb).failed ↔ p ∈ acc.failed) ∧
    (p ∈ dictKeys (mergeAcc acc rb).documents ↔ p ∈ dictKeys acc.documents) := by
  constructor
  · simp [mergeAcc, List.mem_append, h1]
  · simp [mergeAcc, mem_dictKeys_update, h2]

lemma mergeFold_preserve (r : List String → BatchResult) (batches : List (List String)) :
    ∀ (acc : BatchResult) (p : String),
      (∀ b ∈ batches, p ∉ (r b).failed ∧ p ∉ dictKeys (r b).documents) →
      ((p ∈ (batches.foldl (fun a b => mergeAcc a (r b)) acc).failed ↔ p ∈ acc.failed) ∧
       (p ∈ dictKeys (batches.foldl (fun a b => mergeAcc a (r b)) acc).documents
         ↔ p ∈ dictKeys acc.documents)) := by
  induction batches with
  | nil =>
    intro acc p _
    simp
  | cons b rest ih =>
    intro acc p h
    simp only [List.foldl_cons]
    have hb := h b (by simp)
    have hrest := ih (mergeAcc acc (r b)) p (fun b2 hb2 => h b2 (by simp [hb2]))
    have hm := mergeAcc_preserve acc (r b) p hb.1 hb.2
    exact ⟨hrest.1.trans hm.1, hrest.2.trans hm.2⟩

lemma mergeFold_exactlyOne (r : List String → BatchResult) (batches : List (List String)) :
    ∀ (acc : BatchResult) (p : String),
      (∀ b ∈ batches, ∀ x, ((x ∈ (r b).failed ∨ x ∈ dictKeys (r b).documents) ↔ x ∈ b)) →
      (∀ b ∈ batches, ∀ x, ¬(x ∈ (r b).failed ∧ x ∈ dictKeys (r b).documents)) →
      batches.Pairwise List.Disjoint →
      (∀ x ∈ batches.flatten, x ∉ acc.failed ∧ x ∉ dictKeys acc.documents) →
      p ∈ batches.flatten →
      exactlyOne (batches.foldl (fun a b => mergeAcc a (r b)) acc) p := by
  induction batches with
  | nil =>
    intro acc p _ _ _ _ hp
    simp at hp
  | cons b rest ih =>
    intro acc p houtcome hexcl hdisj hfresh hp
    simp only [List.foldl_cons]
    have hdisj1 : ∀ b2 ∈ rest, List.Disjoint b b2 :=
      fun b2 h2 => (List.pairwise_cons.mp hdisj).1 b2 h2
    have hdisj2 := (List.pairwise_cons.mp hdisj).2
    rw [List.flatten_cons, List.mem_append] at hp
    rcases hp with hp | hp
    · have hob := houtcome b (by simp)
      have heb := hexcl b (by simp) p
      have hout : p ∈ (r b).failed ∨ p ∈ dictKeys (r b).documents := (hob p).mpr hp
      have hfr : p ∉ acc.failed ∧ p ∉ dictKeys acc.documents :=
        hfresh p (by simp [hp])
      have hmerge : exactlyOne (mergeAcc acc (r b)) p := by
        rcases Classical.em (p ∈ dictKeys (r b).documents) with h1 | h1
        · refine Or.inl ⟨?_, ?_⟩
          · simp [mergeAcc, mem_dictKeys_update, h1]
          · simp only [mergeAcc, List.mem_append]
            rintro (hc | hc)
            · exact hfr.1 hc
            · exact heb ⟨hc, h1⟩
        · have h2 : p ∈ (r b).failed := by
            rcases hout with h | h
            · exact h
            · exact absurd h h1
          refine Or.inr ⟨?_, ?_⟩
          · simp only [mergeAcc, mem_dictKeys_update]
            rintro (hc | hc)
            · exact hfr.2 hc
            · exact h1 hc
          · simp [mergeAcc, List.mem_append, h2]
      have hpres := mergeFold_preserve r rest (mergeAcc acc (r b)) p
        (by
          intro b2 hb2
          have hpb2 : p ∉ b2 := fun hc => hdisj1 b2 hb2 hp hc
          have hiff := houtcome b2 (by simp [hb2]) p
          exact ⟨fun hc => hpb2 (hiff.mp (Or.inl hc)),
            fun hc => hpb2 (hiff.mp (Or.inr hc))⟩)
      rcases hmerge with ⟨h1, h2⟩ | ⟨h1, h2⟩
      · exact Or.inl ⟨hpres.2.mpr h1, fun hc => h2 (hpres.1.mp hc)⟩
      · exact Or.inr ⟨fun hc => h1 (hpres.2.mp hc), hpres.1.mpr h2⟩
    · apply ih (mergeAcc acc (r b)) p
        (fun b2 hb2 x => houtcome b2 (by simp [hb2]) x)
        (fun b2 hb2 x => hexcl b2 (by simp [hb2]) x)
        hdisj2 ?_ hp
      intro x hx
      have hxb : x ∉ b := by
        rcases List.mem_flatten.mp hx with ⟨b2, hb2, hxb2⟩
        exact fun hc => hdisj1 b2 hb2 hc hxb2
      have hxacc := hfresh x (by simp [hx])
      have hiffb := houtcome b (by simp) x
      constructor
      · simp only [mergeAcc, List.mem_append]
        rintro (hc | hc)
        · exact hxacc.1 hc
        · exact hxb (hiffb.mp (Or.inl hc))
      · simp only [mergeAcc, mem_dictKeys_update]
        rintro (hc | hc)
        · exact hxacc.2 hc
        · exact hxb (hiffb.mp (Or.inr hc))

lemma fetch_batch_characterization (fetchRecords : String → Option (List PubmedArticle))
    (fetchRoot : String → Option Element) (batch : List String)
    (hcov : match fetchRecords (strJoin "," batch) with
            | none => True
            | some arts => pmidsOf arts = batch.dedup) :
    (∀ p, ((p ∈ (fetch_pmcids_from_pmids fetchRecords fetchRoot batch).failed ∨
        p ∈ dictKeys (fetch_pmcids_from_pmids fetchRecords fetchRoot batch).documents)
      ↔ p ∈ batch)) ∧
    (∀ p, ¬(p ∈ (fetch_pmcids_from_pmids fetchRecords fetchRoot batch).failed ∧
        p ∈ dictKeys (fetch_pmcids_from_pmids fetchRecords fetchRoot batch).documents)) := by
  rcases hfr : fetchRecords (strJoin "," batch) with _ | arts
  · constructor
    · intro p
      simp [fetch_pmcids_from_pmids, hfr, dictKeys]
    · intro p
      simp [fetch_pmcids_from_pmids, hfr, dictKeys]
  · have hcov2 : pmidsOf arts = batch.dedup := by
      rw [hfr] at hcov
      exact hcov
    constructor
    · intro p
      have h := foldArts_outcome fetchRoot arts ⟨[], [], []⟩ p
      simp only [fetch_pmcids_from_pmids, hfr]
      rw [h]
      simp [dictKeys, hcov2, List.mem_dedup]
    · intro p
      simp only [fetch_pmcids_from_pmids, hfr]
      apply foldArts_exclusive fetchRoot arts ⟨[], [], []⟩ p
      · rw [hcov2]
        exact batch.nodup_dedup
      · simp
      · intro _
        simp [dictKeys]

lemma chunkList_flatten {α : Type} (bs : Nat) (hbs : 0 < bs) :
    ∀ xs : List α, (chunkList bs xs).flatten = xs := by
  have H : ∀ (n : Nat) (xs : List α), xs.length ≤ n → (chunkList bs xs).flatten = xs := by
    intro n
    induction n with
    | zero =>
      intro xs h
      cases xs with
      | nil => simp [chunkList]
      | cons x rest => simp at h
    | succ n ih =>
      intro xs h
      cases xs with
      | nil => simp [chunkList]
      | cons x rest =>
        simp only [chunkList]
        rw [dif_neg (by omega : ¬ bs = 0)]
        rw [List.flatten_cons]
        have hlen : ((x :: rest).drop bs).length ≤ n := by
          simp only [List.length_drop, List.length_cons]
          simp only [List.length_cons] at h
          omega
        rw [ih ((x :: rest).drop bs) hlen]
        exact List.take_append_drop bs (x :: rest)
  exact fun xs => H xs.length xs le_rfl

/-- C1 counterexample: with an input batch of one identifier and a remote
fetch that succeeds but returns no article record for it, the identifier
ends in neither documents nor failed, refuting the claim that every input
identifier lands in exactly one of the two. -/
theorem pmc_identifier_partition_cx :
    ¬("1" ∈ (fetch_pmcids_from_pmids (fun _ => some []) (fun _ => none) ["1"]).failed ∨
      "1" ∈ dictKeys (fetch_pmcids_from_pmids (fun _ => some []) (fun _ => none) ["1"]).documents) := by
  decide

/-- C1 amended: provided the remote response covers the batch — the fetch
either fails outright (all identifiers marked failed) or returns records
whose extracted PMIDs are exactly the deduplicated batch — every input
identifier ends in exactly one of documents or failed, both for one batch
of fetch_pmcids_from_pmids and, for duplicate-free input lists, for the
whole of download_batch_parallel (duplicates inside one batch collapse to
one outcome).  Identifiers missing from the remote response end in
neither collection. -/
theorem pmc_identifier_partition :
    (∀ (fetchRecords : String → Option (List PubmedArticle))
       (fetchRoot : String → Option Element) (batch : List String),
      (match fetchRecords (strJoin "," batch) with
       | none => True
       | some arts => pmidsOf arts = batch.dedup) →
      ∀ p ∈ batch, exactlyOne (fetch_pmcids_from_pmids fetchRecords fetchRoot batch) p) ∧
    (∀ (fetchRecords : String → Option (List PubmedArticle))
       (fetchRoot : String → Option Element) (id_list : List String) (batch_size : Nat),
      0 < batch_size → id_list.Nodup →
      (∀ b ∈ chunkList batch_size id_list,
        match fetchRecords (strJoin "," b) with
        | none => True
        | some arts => pmidsOf arts = b.dedup) →
      ∀ p ∈ id_list,
        exactlyOne (download_batch_parallel fetchRecords fetchRoot id_list batch_size) p) := by
  constructor
  · intro fetchRecords fetchRoot batch hcov p hp
    have h := fetch_batch_characterization fetchRecords fetchRoot batch hcov
    have hout := (h.1 p).mpr hp
    have hnb := h.2 p
    rcases Classical.em (p ∈ dictKeys (fetch_pmcids_from_pmids fetchRecords fetchRoot batch).documents)
      with hd | hd
    · exact Or.inl ⟨hd, fun hc => hnb ⟨hc, hd⟩⟩
    · rcases hout with hf | hf
      · exact Or.inr ⟨hd, hf⟩
      · exact absurd hf hd
  · intro fetchRecords fetchRoot id_list batch_size hbs hnd hcov p hp
    rw [download_batch_parallel_eq]
    have hflat : (chunkList batch_size id_list).flatten = id_list :=
      chunkList_flatten batch_size hbs id_list
    have hndf : (chunkList batch_size id_list).flatten.Nodup := by
      rw [hflat]
      exact hnd
    have hdisj := (List.nodup_flatten.mp hndf).2
    apply mergeFold_exactlyOne
    · intro b hb x
      exact (fetch_batch_characterization fetchRecords fetchRoot b (hcov b hb)).1 x
    · intro b hb x
      exact (fetch_batch_characterization fetchRecords fetchRoot b (hcov b hb)).2 x
    · exact hdisj
    · intro x _
      simp [dictKeys]
    · rw [hflat]
      exact hp

/-- C1 witness: the amended partition evaluated on a one-identifier batch
whose record resolves to no PMC id (so the identifier fails), at the
batch level and through download_batch_parallel with batch size one. -/
theorem pmc_identifier_partition_witness :
    exactlyOne (fetch_pmcids_from_pmids
      (fun s => if s = "1" then some [⟨some "1", some []⟩] else none)
      (fun _ => none) ["1"]) "1" ∧
    exactlyOne (download_batch_parallel
      (fun s => if s = "1" then some [⟨some "1", some []⟩] else none)
      (fun _ => none) ["1"] 1) "1" := by
  constructor
  · apply pmc_identifier_partition.1 _ _ ["1"] ?_ "1" (by simp)
    show pmidsOf [⟨some "1", some []⟩] = (["1"] : List String).dedup
    decide
  · apply pmc_identifier_partition.2 _ _ ["1"] 1 (by omega) (by simp) ?_ "1" (by simp)
    intro b hb
    have hc : chunkList 1 ["1"] = [["1"]] := by simp [chunkList]
    rw [hc] at hb
    simp only [List.mem_singleton] at hb
    subst hb
    show pmidsOf [⟨some "1", some []⟩] = (["1"] : List String).dedup
    decide

/-- C4 counterexample: an identifier resolving to two candidate PMC ids
whose first candidate fails to download stays a key of the multiple map
while landing in failed and not in documents, refuting the claim that
every key of the multiple map is a key of documents. -/
theorem multiple_map_annotation_cx :
    dictGet (fetch_pmcids_from_pmids
        (fun s => if s = "123" then some [⟨some "123", some ["PMC1", "PMC2"]⟩] else none)
        (fun _ => none) ["123"]).multiple "123" = some ["PMC1", "PMC2"] ∧
    dictGet (fetch_pmcids_from_pmids
        (fun s => if s = "123" then some [⟨some "123", some ["PMC1", "PMC2"]⟩] else none)
        (fun _ => none) ["123"]).documents "123" = none ∧
    "123" ∈ (fetch_pmcids_from_pmids
        (fun s => if s = "123" then some [⟨some "123", some ["PMC1", "PMC2"]⟩] else none)
        (fun _ => none) ["123"]).failed := by
  decide

/-- C4 amended: for an identifier whose record is the only one carrying
its PMID and exposes more than one candidate PMC id, the multiple map
records the full ordered candidate list; the identifier is a key of
documents exactly when the first candidate downloads and parses, and then
the stored document is the parsed first candidate annotated with its PMC
id; when the first candidate fails, the identifier keeps its multiple
entry but is appended to failed and is absent from documents. -/
theorem multiple_map_amended
    (fetchRecords : String → Option (List PubmedArticle)) (fetchRoot : String → Option Element)
    (batch : List String) (arts pre post : List PubmedArticle) (a : PubmedArticle)
    (q : String) (ids : List String) (first : String) (rest : List String)
    (hfetch : fetchRecords (strJoin "," batch) = some arts)
    (hsplit : arts = pre ++ a :: post)
    (hq : a.pmid = some q)
    (hpre : q ∉ pmidsOf pre) (hpost : q ∉ pmidsOf post)
    (hids : a.articleIds = some ids)
    (hfilter : ids.filter (fun s => pyStartsWith s "PMC") = first :: rest)
    (hrest : rest ≠ []) :
    dictGet (fetch_pmcids_from_pmids fetchRecords fetchRoot batch).multiple q
        = some (first :: rest) ∧
    (match download_article fetchRoot first with
     | some doc =>
        dictGet (fetch_pmcids_from_pmids fetchRecords fetchRoot batch).documents q
          = some { doc with metadata := dictInsert doc.metadata "PMCID" (some first) } ∧
        q ∉ (fetch_pmcids_from_pmids fetchRecords fetchRoot batch).failed
     | none =>
        q ∈ (fetch_pmcids_from_pmids fetchRecords fetchRoot batch).failed ∧
        dictGet (fetch_pmcids_from_pmids fetchRecords fetchRoot batch).documents q = none) := by
  have hres : fetch_pmcids_from_pmids fetchRecords fetchRoot batch
      = (pre ++ a :: post).foldl (processArticle fetchRoot) ⟨[], [], []⟩ := by
    simp [fetch_pmcids_from_pmids, hfetch, hsplit]
  rw [hres, List.foldl_append, List.foldl_cons]
  have hpreF := foldArts_preserves fetchRoot pre ⟨[], [], []⟩ q hpre
  have hstep := processArticle_multi fetchRoot
    (pre.foldl (processArticle fetchRoot) ⟨[], [], []⟩) a q ids first rest hq hids hfilter hrest
  have hpostF := foldArts_preserves fetchRoot post
    (processArticle fetchRoot (pre.foldl (processArticle fetchRoot) ⟨[], [], []⟩) a) q hpost
  constructor
  · rw [hpostF.1, hstep.1, dictGet_insert_self]
  · rcases hdl : download_article fetchRoot first with _ | doc
    · rw [hdl] at hstep
      refine ⟨?_, ?_⟩
      · rw [hpostF.2.2, hstep.2.1]
        simp
      · rw [hpostF.2.1, hstep.2.2, hpreF.2.1]
        simp [dictGet]
    · rw [hdl] at hstep
      refine ⟨?_, ?_⟩
      · rw [hpostF.2.1, hstep.2.1, dictGet_insert_self]
      · rw [hpostF.2.2, hstep.2.2, hpreF.2.2]
        simp

/-- C4 witness: the amended statement evaluated on the spec fixture, with
a first candidate whose download fails. -/
theorem multiple_map_amended_witness :
    dictGet (fetch_pmcids_from_pmids
        (fun s => if s = "123" then some [⟨some "123", some ["PMC1", "PMC2"]⟩] else none)
        (fun _ => none) ["123"]).multiple "123" = some ["PMC1", "PMC2"] ∧
    "123" ∈ (fetch_pmcids_from_pmids
        (fun s => if s = "123" then some [⟨some "123", some ["PMC1", "PMC2"]⟩] else none)
        (fun _ => none) ["123"]).failed := by
  have h := multiple_map_amended
    (fun s => if s = "123" then some [⟨some "123", some ["PMC1", "PMC2"]⟩] else none)
    (fun _ => none) ["123"] [⟨some "123", some ["PMC1", "PMC2"]⟩] [] []
    ⟨some "123", some ["PMC1", "PMC2"]⟩ "123" ["PMC1", "PMC2"] "PMC1" ["PMC2"]
    rfl rfl rfl (by decide) (by decide) rfl (by decide) (by decide)
  have hdl : download_article (fun _ : String => (none : Option Element)) "PMC1" = none := rfl
  rw [hdl] at h
  exact ⟨h.1, h.2.1⟩
